import Mathlib

/-!
Verification of the `vps-backups` repository: a shallow embedding of the two
backup scripts (`compose_backup.py`, `compose_mysql_backup.py`) and proofs of
the specification's claims about them.

Python strings are modelled as `List Char`.  Python truthiness of optional
strings (`None` and `""` are falsy) is modelled explicitly, since the scripts
use `x or y` and `if x:` on values obtained from `dict.get`.  JSON objects
with string-valued fields are modelled as association lists.
-/

set_option maxHeartbeats 1000000

namespace VpsBackups

/-- Python strings, modelled as lists of characters. -/
abbrev Str := List Char

/-- Python truthiness of an optional string: `None` and `""` are falsy. -/
def pyTruthy : Option Str → Bool
  | none => false
  | some s => !s.isEmpty

/-- Python `a or b` on optional strings (returns `b` when `a` is falsy). -/
def pyOrOpt (a b : Option Str) : Option Str := if pyTruthy a then a else b

/-- Python `a or d` where the default is a plain string, e.g. `x.get(k) or ""`. -/
def pyOrD (a : Option Str) (d : Str) : Str := if pyTruthy a then a.getD [] else d

/-- Python `dict.get` on a JSON object modelled as an association list. -/
def dictGet (d : List (Str × Str)) (k : Str) : Option Str := List.lookup k d

/-- Python `str.lower()`. -/
def toLowerStr (s : Str) : Str := s.map Char.toLower

/-- Python `str.upper()`. -/
def toUpperStr (s : Str) : Str := s.map Char.toUpper

/-- Python substring containment `needle in hay`. -/
def containsSeq (needle : Str) : Str → Bool
  | [] => needle.isEmpty
  | c :: rest => needle.isPrefixOf (c :: rest) || containsSeq needle rest

/-- Characters kept by the sanitizer's character class `[A-Za-z0-9._-]`
(`safe_filename_for_bind` in `compose_backup.py`). -/
def isSafeChar (c : Char) : Bool :=
  ('A' ≤ c && c ≤ 'Z') || ('a' ≤ c && c ≤ 'z') || ('0' ≤ c && c ≤ '9') ||
    c == '.' || c == '_' || c == '-'

/-- ASCII whitespace stripped by Python `str.strip()` (the further Unicode
whitespace code points stripped by Python do not interact with any claim,
since no sanitizer output ever contains them). -/
def isPySpace (c : Char) : Bool :=
  c == ' ' || c == '\t' || c == '\n' || c == '\r' || c == '\x0b' || c == '\x0c'

/-- Strip characters satisfying `p` from both ends of a list
(Python `str.strip` / `str.strip("_")`). -/
def dropBoth (p : Char → Bool) (l : Str) : Str :=
  ((l.dropWhile p).reverse.dropWhile p).reverse

/-- Python `str.strip()` (whitespace from both ends). -/
def stripWs (l : Str) : Str := dropBoth isPySpace l

/-- Python `str.strip("_")`. -/
def stripUnderscores (l : Str) : Str := dropBoth (fun c => c == '_') l

/-- Worker for `re.sub(r"[^A-Za-z0-9._-]+", "_", ·)`: the flag records whether
the previous character was part of an (already replaced) unsafe run. -/
def substA : Bool → Str → Str
  | _, [] => []
  | prevBad, c :: rest =>
    if isSafeChar c then c :: substA false rest
    else if prevBad then substA true rest else '_' :: substA true rest

/-- `re.sub(r"[^A-Za-z0-9._-]+", "_", s)`: every maximal run of characters
outside the class is replaced by a single underscore. -/
def substUnsafe (l : Str) : Str := substA false l

/-- `safe_filename_for_bind` (compose_backup.py, lines 135-139):
`base = re.sub(r"[^A-Za-z0-9._-]+", "_", source_path.strip())` followed by
`return base.strip("_") or "bind_path"`. -/
def safe_filename_for_bind (s : Str) : Str :=
  let base := substUnsafe (stripWs s)
  let stripped := stripUnderscores base
  if stripped.isEmpty then "bind_path".toList else stripped

/- ### Basic lemmas about the sanitizer -/

theorem mem_substA {c : Char} : ∀ {b : Bool} {l : Str}, c ∈ substA b l → isSafeChar c = true := by
  intro b l
  induction l generalizing b with
  | nil => intro h; simp [substA] at h
  | cons a rest ih =>
    intro h
    by_cases ha : isSafeChar a
    · simp only [substA, if_pos ha] at h
      rcases List.mem_cons.mp h with h | h
      · exact h ▸ ha
      · exact ih h
    · simp only [substA, if_neg ha] at h
      cases b with
      | true => exact ih (by simpa using h)
      | false =>
        simp only [Bool.false_eq_true, if_neg] at h
        rcases List.mem_cons.mp h with h | h
        · subst h; decide
        · exact ih h

theorem substA_eq_self {l : Str} (h : ∀ c ∈ l, isSafeChar c = true) :
    ∀ b, substA b l = l := by
  induction l with
  | nil => intro b; rfl
  | cons a rest ih =>
    intro b
    have ha : isSafeChar a = true := h a (List.mem_cons_self a rest)
    simp only [substA, if_pos ha]
    exact congrArg (a :: ·) (ih (fun c hc => h c (List.mem_cons_of_mem a hc)) false)

theorem dropWhile_eq_self_of {p : Char → Bool} {l : Str}
    (h : ∀ c, l.head? = some c → p c = false) : l.dropWhile p = l := by
  cases l with
  | nil => rfl
  | cons a t =>
    have := h a rfl
    simp [List.dropWhile_cons, this]

theorem pred_false_of_head?_dropWhile {p : Char → Bool} {c : Char} :
    ∀ {l : Str}, (l.dropWhile p).head? = some c → p c = false := by
  intro l
  induction l with
  | nil => intro h; simp [List.dropWhile] at h
  | cons a t ih =>
    intro h
    by_cases ha : p a
    · exact ih (by simpa [List.dropWhile_cons, ha] using h)
    · have ha' : p a = false := by simpa using ha
      simp only [List.dropWhile_cons, ha', Bool.false_eq_true, if_false, List.head?_cons,
        Option.some.injEq] at h
      subst h
      exact ha'

theorem getLast?_dropWhile_eq {p : Char → Bool} {c : Char} :
    ∀ {l : Str}, (l.dropWhile p).getLast? = some c → l.getLast? = some c := by
  intro l
  induction l with
  | nil => intro h; simp [List.dropWhile] at h
  | cons a t ih =>
    intro h
    by_cases ha : p a
    · have h' := ih (by simpa [List.dropWhile_cons, ha] using h)
      have ht : t ≠ [] := by
        intro he; subst he; simp at h'
      cases t with
      | nil => exact absurd rfl ht
      | cons b t' => simpa [List.getLast?_cons_cons] using h'
    · have ha' : p a = false := by simpa using ha
      simpa [List.dropWhile_cons, ha'] using h

theorem mem_of_mem_dropBoth {p : Char → Bool} {c : Char} {l : Str}
    (h : c ∈ dropBoth p l) : c ∈ l := by
  unfold dropBoth at h
  have h1 : c ∈ (l.dropWhile p).reverse.dropWhile p := List.mem_reverse.mp h
  have h2 : c ∈ (l.dropWhile p).reverse := (List.dropWhile_sublist p).subset h1
  exact (List.dropWhile_sublist p).subset (List.mem_reverse.mp h2)

theorem pred_false_of_head?_dropBoth {p : Char → Bool} {c : Char} {l : Str}
    (h : (dropBoth p l).head? = some c) : p c = false := by
  unfold dropBoth at h
  rw [List.head?_reverse] at h
  have h2 : (l.dropWhile p).reverse.getLast? = some c := getLast?_dropWhile_eq h
  rw [List.getLast?_reverse] at h2
  exact pred_false_of_head?_dropWhile h2

theorem pred_false_of_getLast?_dropBoth {p : Char → Bool} {c : Char} {l : Str}
    (h : (dropBoth p l).getLast? = some c) : p c = false := by
  unfold dropBoth at h
  rw [List.getLast?_reverse] at h
  exact pred_false_of_head?_dropWhile h

theorem dropBoth_eq_self {p : Char → Bool} {l : Str}
    (h1 : ∀ c, l.head? = some c → p c = false)
    (h2 : ∀ c, l.getLast? = some c → p c = false) : dropBoth p l = l := by
  unfold dropBoth
  rw [dropWhile_eq_self_of h1]
  have : l.reverse.dropWhile p = l.reverse := by
    apply dropWhile_eq_self_of
    intro c hc
    rw [List.head?_reverse] at hc
    exact h2 c hc
  rw [this, List.reverse_reverse]

theorem dropBoth_idem (p : Char → Bool) (l : Str) :
    dropBoth p (dropBoth p l) = dropBoth p l :=
  dropBoth_eq_self (fun _ h => pred_false_of_head?_dropBoth h)
    (fun _ h => pred_false_of_getLast?_dropBoth h)

theorem isPySpace_eq_false_of_safe {c : Char} (h : isSafeChar c = true) :
    isPySpace c = false := by
  by_contra hcon
  have hs : isPySpace c = true := by
    cases hps : isPySpace c
    · exact absurd hps hcon
    · rfl
  simp only [isPySpace, Bool.or_eq_true, beq_iff_eq] at hs
  rcases hs with ((((h1 | h1) | h1) | h1) | h1) | h1 <;> (subst h1; simp [isSafeChar] at h)

theorem mem_of_head?_eq {α : Type} {l : List α} {a : α} (h : l.head? = some a) : a ∈ l := by
  cases l with
  | nil => simp at h
  | cons b t =>
    simp only [List.head?_cons, Option.some.injEq] at h
    exact h ▸ List.mem_cons_self b t

theorem mem_of_getLast?_eq {α : Type} {l : List α} {a : α} (h : l.getLast? = some a) : a ∈ l := by
  have h' : l.reverse.head? = some a := by rw [List.head?_reverse]; exact h
  exact List.mem_reverse.mp (mem_of_head?_eq h')

/-- Unfolding equation for `safe_filename_for_bind`. -/
theorem safe_filename_def (s : Str) :
    safe_filename_for_bind s =
      if (stripUnderscores (substUnsafe (stripWs s))).isEmpty then "bind_path".toList
      else stripUnderscores (substUnsafe (stripWs s)) := rfl

theorem mem_substUnsafe {c : Char} {l : Str} (h : c ∈ substUnsafe l) : isSafeChar c = true :=
  mem_substA h

/-- Any all-safe, underscore-stripped, nonempty string is a fixed point of the
sanitizer. -/
theorem safe_filename_fixed {l : Str} (hsafe : ∀ c ∈ l, isSafeChar c = true)
    (hstr : stripUnderscores l = l) (hne : l.isEmpty = false) :
    safe_filename_for_bind l = l := by
  have hws : stripWs l = l :=
    dropBoth_eq_self
      (fun c hc => isPySpace_eq_false_of_safe (hsafe c (mem_of_head?_eq hc)))
      (fun c hc => isPySpace_eq_false_of_safe (hsafe c (mem_of_getLast?_eq hc)))
  have hsub : substUnsafe l = l := substA_eq_self hsafe false
  rw [safe_filename_def, hws, hsub, hstr, hne]
  simp

/-- C9: the bind-path sanitizer is idempotent. -/
theorem C9_sanitizer_idempotent (s : Str) :
    safe_filename_for_bind (safe_filename_for_bind s) = safe_filename_for_bind s := by
  rw [safe_filename_def s]
  by_cases he : (stripUnderscores (substUnsafe (stripWs s))).isEmpty
  · rw [if_pos he]
    decide
  · rw [if_neg he]
    apply safe_filename_fixed
    · intro c hc
      exact mem_substUnsafe (mem_of_mem_dropBoth hc)
    · show dropBoth _ (dropBoth _ _) = dropBoth _ _
      exact dropBoth_idem _ _
    · simpa using he

/-- C2 counterexample: the sanitizer maps `/data/my app!` to `data_my_app`
(not `data_my_app_`, since `strip("_")` removes the trailing underscore), and
it also returns the placeholder for the input `bind_path` itself even though
the stripped base is nonempty there. -/
theorem C2_counterexample :
    safe_filename_for_bind "/data/my app!".toList = "data_my_app".toList ∧
    "data_my_app".toList ≠ "data_my_app_".toList ∧
    safe_filename_for_bind "bind_path".toList = "bind_path".toList ∧
    stripUnderscores (substUnsafe (stripWs "bind_path".toList)) ≠ [] := by
  refine ⟨by decide, by decide, by decide, by decide⟩

/-- C2 (amended): sanitizing `/data/my app!` yields exactly `data_my_app`; for
every input the result contains only characters in `[A-Za-z0-9._-]`, never
starts or ends with an underscore, and equals the placeholder `bind_path`
exactly when the underscore-stripped sanitized base is empty or is itself the
string `bind_path`. -/
theorem C2_safe_filename_for_bind :
    safe_filename_for_bind "/data/my app!".toList = "data_my_app".toList ∧
    (∀ s : Str, ∀ c ∈ safe_filename_for_bind s, isSafeChar c = true) ∧
    (∀ s : Str, (safe_filename_for_bind s).head? ≠ some '_' ∧
      (safe_filename_for_bind s).getLast? ≠ some '_') ∧
    (∀ s : Str, safe_filename_for_bind s = "bind_path".toList ↔
      (stripUnderscores (substUnsafe (stripWs s)) = [] ∨
        stripUnderscores (substUnsafe (stripWs s)) = "bind_path".toList)) := by
  refine ⟨by decide, ?_, ?_, ?_⟩
  · intro s c hc
    rw [safe_filename_def s] at hc
    by_cases he : (stripUnderscores (substUnsafe (stripWs s))).isEmpty
    · rw [if_pos he] at hc
      have hall : ∀ d ∈ "bind_path".toList, isSafeChar d = true := by decide
      exact hall c hc
    · rw [if_neg he] at hc
      exact mem_substUnsafe (mem_of_mem_dropBoth hc)
  · intro s
    rw [safe_filename_def s]
    by_cases he : (stripUnderscores (substUnsafe (stripWs s))).isEmpty
    · rw [if_pos he]
      constructor <;> decide
    · rw [if_neg he]
      constructor
      · intro h
        have := pred_false_of_head?_dropBoth h
        simp at this
      · intro h
        have := pred_false_of_getLast?_dropBoth h
        simp at this
  · intro s
    rw [safe_filename_def s]
    by_cases he : (stripUnderscores (substUnsafe (stripWs s))).isEmpty
    · rw [if_pos he]
      have : stripUnderscores (substUnsafe (stripWs s)) = [] := by
        simpa [List.isEmpty_iff] using he
      simp [this]
    · rw [if_neg he]
      have hne : stripUnderscores (substUnsafe (stripWs s)) ≠ [] := by
        simpa [List.isEmpty_iff] using he
      simp [hne]

/-- C2 witness: the universally quantified parts of `C2_safe_filename_for_bind`
instantiated at a concrete input. -/
theorem C2_safe_filename_witness : isSafeChar 'd' = true :=
  C2_safe_filename_for_bind.2.1 "/data".toList 'd' (by decide)

/- ### Credential resolution (`resolve_mysql_credentials`) -/

/-- `env.get("MYSQL_ROOT_PASSWORD") or env.get("MARIADB_ROOT_PASSWORD")`. -/
def mysqlRootChain (env : List (Str × Str)) : Option Str :=
  pyOrOpt (dictGet env "MYSQL_ROOT_PASSWORD".toList) (dictGet env "MARIADB_ROOT_PASSWORD".toList)

/-- `env.get("MYSQL_USER") or env.get("MARIADB_USER") or env.get("MYSQL_USERNAME")`. -/
def mysqlUserChain (env : List (Str × Str)) : Option Str :=
  pyOrOpt (pyOrOpt (dictGet env "MYSQL_USER".toList) (dictGet env "MARIADB_USER".toList))
    (dictGet env "MYSQL_USERNAME".toList)

/-- `env.get("MYSQL_PASSWORD") or env.get("MARIADB_PASSWORD")`. -/
def mysqlPwdChain (env : List (Str × Str)) : Option Str :=
  pyOrOpt (dictGet env "MYSQL_PASSWORD".toList) (dictGet env "MARIADB_PASSWORD".toList)

/-- `resolve_mysql_credentials` (compose_backup.py lines 202-211,
compose_mysql_backup.py lines 114-123). -/
def resolve_mysql_credentials (env : List (Str × Str)) : Option (Str × Str) :=
  let root_pass := mysqlRootChain env
  if pyTruthy root_pass then some ("root".toList, root_pass.getD [])
  else
    let user := mysqlUserChain env
    let pwd := mysqlPwdChain env
    if pyTruthy user && pyTruthy pwd then some (user.getD [], pwd.getD []) else none

theorem pyTruthy_some {s : Str} (h : s ≠ []) : pyTruthy (some s) = true := by
  simp [pyTruthy, h]

theorem getD_ne_nil_of_truthy {o : Option Str} (h : pyTruthy o = true) : o.getD [] ≠ [] := by
  cases o with
  | none => simp [pyTruthy] at h
  | some s => simpa [pyTruthy] using h

theorem getD_eq_of_truthy {o : Option Str} (h : pyTruthy o = true) : o = some (o.getD []) := by
  cases o with
  | none => simp [pyTruthy] at h
  | some s => rfl

theorem pyOrOpt_of_truthy {a b : Option Str} (h : pyTruthy a = true) : pyOrOpt a b = a := by
  simp [pyOrOpt, h]

theorem pyOrOpt_of_falsy {a b : Option Str} (h : pyTruthy a = false) : pyOrOpt a b = b := by
  simp [pyOrOpt, h]

theorem pyTruthy_pyOrOpt_false {a b : Option Str} (ha : pyTruthy a = false)
    (hb : pyTruthy b = false) : pyTruthy (pyOrOpt a b) = false := by
  rw [pyOrOpt_of_falsy ha]; exact hb

/-- C4: credential resolution prefers a truthy root password under either
vendor naming (returning identity `root`), then falls back to a truthy
user/password pair, and otherwise reports no credentials; the three concrete
environments of the spec behave as stated. -/
theorem C4_resolve_credentials :
    (∀ (env : List (Str × Str)) (p : Str),
      dictGet env "MYSQL_ROOT_PASSWORD".toList = some p → p ≠ [] →
      resolve_mysql_credentials env = some ("root".toList, p)) ∧
    (∀ (env : List (Str × Str)) (p : Str),
      pyTruthy (dictGet env "MYSQL_ROOT_PASSWORD".toList) = false →
      dictGet env "MARIADB_ROOT_PASSWORD".toList = some p → p ≠ [] →
      resolve_mysql_credentials env = some ("root".toList, p)) ∧
    (∀ (env : List (Str × Str)) (u p : Str),
      pyTruthy (mysqlRootChain env) = false →
      mysqlUserChain env = some u → u ≠ [] →
      mysqlPwdChain env = some p → p ≠ [] →
      resolve_mysql_credentials env = some (u, p)) ∧
    (∀ env : List (Str × Str),
      pyTruthy (mysqlRootChain env) = false →
      (pyTruthy (mysqlUserChain env) = false ∨ pyTruthy (mysqlPwdChain env) = false) →
      resolve_mysql_credentials env = none) ∧
    resolve_mysql_credentials [("MYSQL_ROOT_PASSWORD".toList, "r".toList)] =
      some ("root".toList, "r".toList) ∧
    resolve_mysql_credentials
      [("MYSQL_USER".toList, "u".toList), ("MYSQL_PASSWORD".toList, "p".toList)] =
      some ("u".toList, "p".toList) ∧
    resolve_mysql_credentials [] = none := by
  refine ⟨?_, ?_, ?_, ?_, by decide, by decide, by decide⟩
  · intro env p h1 hp
    have hroot : mysqlRootChain env = some p := by
      rw [mysqlRootChain, h1, pyOrOpt_of_truthy (pyTruthy_some hp)]
    simp [resolve_mysql_credentials, hroot, pyTruthy_some hp]
  · intro env p h1 h2 hp
    have hroot : mysqlRootChain env = some p := by
      rw [mysqlRootChain, pyOrOpt_of_falsy h1, h2]
    simp [resolve_mysql_credentials, hroot, pyTruthy_some hp]
  · intro env u p hroot hu hune hp hpne
    simp [resolve_mysql_credentials, hroot, hu, hp, pyTruthy_some hune, pyTruthy_some hpne]
  · intro env hroot hor
    rcases hor with h | h <;>
      simp [resolve_mysql_credentials, hroot, h]

/-- C4 witness: the first clause of `C4_resolve_credentials` at a concrete
environment. -/
theorem C4_resolve_credentials_witness :
    resolve_mysql_credentials [("MYSQL_ROOT_PASSWORD".toList, "r".toList)] =
      some ("root".toList, "r".toList) :=
  C4_resolve_credentials.1 [("MYSQL_ROOT_PASSWORD".toList, "r".toList)] "r".toList
    (by decide) (by decide)

/-- C10: environment variables set to the empty string are treated as absent;
resolution never returns a pair containing the empty string, falls through to
the user/password branch when both root keys are falsy, and the concrete
empty-string environments behave as claimed. -/
theorem C10_empty_values_absent :
    (∀ (env : List (Str × Str)) (u p : Str),
      resolve_mysql_credentials env = some (u, p) → u ≠ [] ∧ p ≠ []) ∧
    (∀ env : List (Str × Str),
      pyTruthy (dictGet env "MYSQL_ROOT_PASSWORD".toList) = false →
      pyTruthy (dictGet env "MARIADB_ROOT_PASSWORD".toList) = false →
      resolve_mysql_credentials env =
        (if pyTruthy (mysqlUserChain env) && pyTruthy (mysqlPwdChain env)
         then some ((mysqlUserChain env).getD [], (mysqlPwdChain env).getD [])
         else none)) ∧
    resolve_mysql_credentials
      [("MYSQL_ROOT_PASSWORD".toList, "".toList),
       ("MYSQL_USER".toList, "u".toList), ("MYSQL_PASSWORD".toList, "p".toList)] =
      some ("u".toList, "p".toList) ∧
    resolve_mysql_credentials
      [("MYSQL_USER".toList, "".toList), ("MYSQL_PASSWORD".toList, "p".toList)] = none ∧
    resolve_mysql_credentials
      [("MYSQL_USER".toList, "u".toList), ("MYSQL_PASSWORD".toList, "".toList)] = none := by
  refine ⟨?_, ?_, by decide, by decide, by decide⟩
  · intro env u p h
    rw [resolve_mysql_credentials] at h
    by_cases hroot : pyTruthy (mysqlRootChain env)
    · rw [if_pos hroot] at h
      simp only [Option.some.injEq, Prod.mk.injEq] at h
      refine ⟨by rw [← h.1]; decide, by rw [← h.2]; exact getD_ne_nil_of_truthy hroot⟩
    · rw [if_neg hroot] at h
      by_cases hup : pyTruthy (mysqlUserChain env) && pyTruthy (mysqlPwdChain env)
      · rw [if_pos hup] at h
        simp only [Option.some.injEq, Prod.mk.injEq] at h
        rcases Bool.and_eq_true_iff.mp hup with ⟨hu, hp⟩
        exact ⟨h.1 ▸ getD_ne_nil_of_truthy hu, h.2 ▸ getD_ne_nil_of_truthy hp⟩
      · rw [if_neg hup] at h
        exact absurd h (by simp)
  · intro env h1 h2
    have hroot : pyTruthy (mysqlRootChain env) = false :=
      pyTruthy_pyOrOpt_false h1 h2
    simp [resolve_mysql_credentials, hroot]

/-- C10 witness: the no-empty-components clause applied at a concrete
environment. -/
theorem C10_empty_values_witness : "root".toList ≠ ([] : Str) ∧ "r".toList ≠ ([] : Str) :=
  C10_empty_values_absent.1 [("MYSQL_ROOT_PASSWORD".toList, "r".toList)]
    "root".toList "r".toList (by decide)

/- ### Database enumeration (`list_databases`) -/

/-- Line-boundary characters of Python `str.splitlines()`. -/
def isLineBoundary (c : Char) : Bool :=
  c == '\n' || c == '\r' || c == '\x0b' || c == '\x0c' ||
    c == '\x1c' || c == '\x1d' || c == '\x1e' || c == '\x85' ||
    c == '\u2028' || c == '\u2029'

/-- Worker for Python `str.splitlines()`: `acc` holds the current line in
reverse; `\r\n` counts as a single boundary and a trailing boundary produces
no empty final line. -/
def splitLinesAux : Str → Str → List Str
  | [], acc => if acc.isEmpty then [] else [acc.reverse]
  | '\r' :: '\n' :: rest, acc => acc.reverse :: splitLinesAux rest []
  | c :: rest, acc =>
    if isLineBoundary c then acc.reverse :: splitLinesAux rest []
    else splitLinesAux rest (c :: acc)

/-- Python `str.splitlines()`. -/
def splitLines (l : Str) : List Str := splitLinesAux l []

/-- The `SYSTEM_DATABASES` set of both scripts. -/
def SYSTEM_DATABASES : List Str :=
  ["information_schema".toList, "performance_schema".toList, "mysql".toList, "sys".toList]

/-- `list_databases` (compose_backup.py lines 214-225, compose_mysql_backup.py
lines 126-137), with the external `docker exec mysql` call modelled by its
exit code and stdout. -/
def list_databases (code : Int) (out : Str) : List Str :=
  if code ≠ 0 then []
  else
    let dbs := ((splitLines out).map stripWs).filter (fun d => !d.isEmpty)
    dbs.filter (fun d => !SYSTEM_DATABASES.contains d)

/-- C6: a non-zero exit yields the empty list rather than an error; on exit 0
the result is exactly the trimmed, non-blank lines not in the system-schema
set; and the spec's concrete example yields exactly `["appdb"]`. -/
theorem C6_list_databases :
    (∀ (code : Int) (out : Str), code ≠ 0 → list_databases code out = []) ∧
    (∀ (out : Str) (d : Str), d ∈ list_databases 0 out ↔
      ∃ line ∈ splitLines out, stripWs line = d ∧ d ≠ [] ∧
        SYSTEM_DATABASES.contains d = false) ∧
    list_databases 0 "information_schema\nmysql\nappdb".toList = ["appdb".toList] := by
  refine ⟨?_, ?_, by decide⟩
  · intro code out h
    simp [list_databases, h]
  · intro out d
    have h0 : ¬((0 : Int) ≠ 0) := by simp
    simp only [list_databases, if_neg h0, List.mem_filter, List.mem_map,
      Bool.not_eq_true', List.isEmpty_eq_false]
    constructor
    · rintro ⟨⟨⟨line, hline, hstrip⟩, hne⟩, hsys⟩
      exact ⟨line, hline, hstrip, hne, hsys⟩
    · rintro ⟨line, hline, hstrip, hne, hsys⟩
      exact ⟨⟨⟨line, hline, hstrip⟩, hne⟩, hsys⟩

/-- C6 witness: the non-zero-exit clause applied at exit code 1. -/
theorem C6_list_databases_witness : list_databases 1 "appdb".toList = [] :=
  C6_list_databases.1 1 "appdb".toList (by decide)

/- ### Service classification (`find_mysql_services`) -/

/-- A service entry of the normalized compose config: its declared image and
the keys of its environment mapping (`svc.get("image") or ""` and
`svc.get("environment") or {}` are modelled by the `Option` default and an
empty key list respectively; a list-form environment contributes its raw
`KEY=VALUE` entries as keys, which leaves the startswith test unchanged). -/
structure ServiceCfg where
  image : Option Str
  envKeys : List Str

/-- The per-service condition of `find_mysql_services` (compose_backup.py
lines 40-52, compose_mysql_backup.py lines 38-50). -/
def isMySqlSvc (svc : ServiceCfg) : Bool :=
  let image := toLowerStr (svc.image.getD [])
  containsSeq "mysql".toList image || containsSeq "mariadb".toList image ||
    svc.envKeys.any (fun k => "MYSQL_".toList.isPrefixOf (toUpperStr k))

/-- `find_mysql_services`: iterate the services mapping in order, collecting
matching names. -/
def find_mysql_services (services : List (Str × ServiceCfg)) : List Str :=
  services.foldl (fun acc p => if isMySqlSvc p.2 then acc ++ [p.1] else acc) []

theorem find_mysql_services_foldl (services : List (Str × ServiceCfg)) :
    ∀ acc : List Str,
      services.foldl (fun acc p => if isMySqlSvc p.2 then acc ++ [p.1] else acc) acc =
        acc ++ (services.filter (fun p => isMySqlSvc p.2)).map Prod.fst := by
  induction services with
  | nil => intro acc; simp
  | cons q rest ih =>
    intro acc
    by_cases hq : isMySqlSvc q.2
    · simp [List.foldl_cons, hq, ih, List.filter_cons]
    · have hq' : isMySqlSvc q.2 = false := by simpa using hq
      simp [List.foldl_cons, hq', ih, List.filter_cons]

/-- C3: the classifier returns, in the source mapping's insertion order,
exactly the names of services whose lowered image contains `mysql` or
`mariadb` or which have an environment key whose uppercase form starts with
`MYSQL_`. -/
theorem C3_find_mysql_services :
    (∀ services : List (Str × ServiceCfg),
      find_mysql_services services =
        (services.filter (fun p => isMySqlSvc p.2)).map Prod.fst) ∧
    (∀ (services : List (Str × ServiceCfg)) (name : Str),
      name ∈ find_mysql_services services ↔
        ∃ cfg : ServiceCfg, (name, cfg) ∈ services ∧
          (containsSeq "mysql".toList (toLowerStr (cfg.image.getD [])) ||
           containsSeq "mariadb".toList (toLowerStr (cfg.image.getD [])) ||
           cfg.envKeys.any (fun k => "MYSQL_".toList.isPrefixOf (toUpperStr k))) = true) := by
  have hfold : ∀ services : List (Str × ServiceCfg),
      find_mysql_services services =
        (services.filter (fun p => isMySqlSvc p.2)).map Prod.fst := by
    intro services
    simpa using find_mysql_services_foldl services []
  refine ⟨hfold, ?_⟩
  intro services name
  rw [hfold]
  simp only [List.mem_map, List.mem_filter]
  constructor
  · rintro ⟨⟨n, cfg⟩, ⟨hp, hq⟩, hname⟩
    cases hname
    exact ⟨cfg, hp, hq⟩
  · rintro ⟨cfg, hmem, hq⟩
    exact ⟨(name, cfg), ⟨hmem, hq⟩, rfl⟩

/- ### Fatal preconditions in `main` -/

/-- The loaded compose config: its top-level JSON keys (for Python dict
truthiness of `if not config:`) and the value of `config.get("services", {})`. -/
structure ComposeConfig where
  topKeys : List Str
  services : List (Str × ServiceCfg)

/-- The precondition section of `main` (compose_backup.py lines 322-340,
compose_mysql_backup.py lines 199-217): missing compose file, falsy config,
empty filter result and zero detected services each raise `SystemExit(2)`;
otherwise the classified (and possibly filtered) service list flows on.
`composeExists` models `compose_file.exists()` and `config?` the result of
`compose_config_json` (`none` = command failure or undecodable JSON). -/
def mainGate (composeExists : Bool) (config? : Option ComposeConfig)
    (svcFilter : Option (List Str)) : Except Nat (List Str) :=
  if composeExists = false then Except.error 2
  else
    match config? with
    | none => Except.error 2
    | some config =>
      if config.topKeys.isEmpty then Except.error 2
      else
        let ms0 := find_mysql_services config.services
        let filterOn : Bool := match svcFilter with
          | none => false
          | some fl => !fl.isEmpty
        let ms1 := if filterOn then ms0.filter (fun s => (svcFilter.getD []).contains s)
          else ms0
        if filterOn && ms1.isEmpty then Except.error 2
        else if ms1.isEmpty then Except.error 2
        else Except.ok ms1

/-- `main` seen as exit code plus the files the run writes: every
`SystemExit(2)` in the precondition section is raised before `ensure_dir` or
any write, so an error short-circuits with no files; `pipelineFiles` stands
for the downstream backup pipeline on the surviving service list. -/
def mainExitAndFiles (composeExists : Bool) (config? : Option ComposeConfig)
    (svcFilter : Option (List Str)) (pipelineFiles : List Str → List Str) :
    Nat × List Str :=
  match mainGate composeExists config? svcFilter with
  | Except.error n => (n, [])
  | Except.ok ms => (0, pipelineFiles ms)

/-- C7: a missing compose file, an unloadable or falsy config, a `--service`
filter that matches nothing, and zero classified services each exit with code
2 and write no files; in particular `--service nonexistent` against a config
declaring only a `web` service does so. -/
theorem C7_exit_code_2 :
    (∀ (config? : Option ComposeConfig) (f : Option (List Str)),
      mainGate false config? f = Except.error 2) ∧
    (∀ (b : Bool) (f : Option (List Str)), mainGate b none f = Except.error 2) ∧
    (∀ (b : Bool) (cfg : ComposeConfig) (f : Option (List Str)), cfg.topKeys = [] →
      mainGate b (some cfg) f = Except.error 2) ∧
    (∀ (b : Bool) (cfg : ComposeConfig) (fl : List Str), fl ≠ [] →
      (find_mysql_services cfg.services).filter (fun s => fl.contains s) = [] →
      mainGate b (some cfg) (some fl) = Except.error 2) ∧
    (∀ (b : Bool) (cfg : ComposeConfig) (f : Option (List Str)),
      find_mysql_services cfg.services = [] →
      mainGate b (some cfg) f = Except.error 2) ∧
    (∀ (b : Bool) (config? : Option ComposeConfig) (f : Option (List Str))
      (pf : List Str → List Str) (n : Nat), mainGate b config? f = Except.error n →
      mainExitAndFiles b config? f pf = (n, [])) ∧
    (∀ pf : List Str → List Str,
      mainExitAndFiles true
        (some ⟨["services".toList],
          [("web".toList, ⟨some "nginx".toList, []⟩)]⟩)
        (some ["nonexistent".toList]) pf = (2, [])) := by
  refine ⟨?_, ?_, ?_, ?_, ?_, ?_, ?_⟩
  · intro config? f
    simp [mainGate]
  · intro b f
    cases b <;> simp [mainGate]
  · intro b cfg f h
    cases b <;> simp [mainGate, h]
  · intro b cfg fl hfl hempty
    cases b
    · simp [mainGate]
    · by_cases htop : cfg.topKeys.isEmpty
      · simp [mainGate, htop]
      · have hfl' : fl.isEmpty = false := by simpa [List.isEmpty_eq_false] using hfl
        simp only [mainGate, Bool.true_eq_false, if_false, htop, Bool.false_eq_true,
          hfl', Bool.not_false, if_true, Option.getD_some, hempty, List.isEmpty_nil,
          Bool.and_true]
  · intro b cfg f h
    cases b
    · simp [mainGate]
    · by_cases htop : cfg.topKeys.isEmpty
      · simp [mainGate, htop]
      · cases f with
        | none => simp [mainGate, htop, h]
        | some fl =>
          by_cases hfl : fl.isEmpty <;> simp [mainGate, htop, h, hfl]
  · intro b config? f pf n h
    simp [mainExitAndFiles, h]
  · intro pf
    have h : mainGate true
        (some ⟨["services".toList],
          [("web".toList, ⟨some "nginx".toList, []⟩)]⟩)
        (some ["nonexistent".toList]) = Except.error 2 := by rfl
    unfold mainExitAndFiles
    rw [h]

/-- C7 witness: the falsy-config clause applied at the empty JSON object. -/
theorem C7_exit_code_2_witness :
    mainGate true (some ⟨[], []⟩) none = Except.error 2 :=
  C7_exit_code_2.2.2.1 true ⟨[], []⟩ none rfl

/- ### Mount archiving (`backup_volumes_for_service`, compose_backup.py only) -/

/-- A JSON object with string fields, as used for `docker inspect` mount
entries and `docker ps` lines. -/
abbrev Obj := List (Str × Str)

/-- `(m.get("Type") or m.get("type") or "").lower()`. -/
def mountType (m : Obj) : Str :=
  toLowerStr (pyOrD (pyOrOpt (dictGet m "Type".toList) (dictGet m "type".toList)) [])

/-- `m.get("Destination") or m.get("Target") or m.get("destination") or
m.get("target")`. -/
def mountDest (m : Obj) : Option Str :=
  pyOrOpt (pyOrOpt (pyOrOpt (dictGet m "Destination".toList) (dictGet m "Target".toList))
    (dictGet m "destination".toList)) (dictGet m "target".toList)

/-- `m.get("Source") or m.get("source")`. -/
def mountSrc (m : Obj) : Option Str :=
  pyOrOpt (dictGet m "Source".toList) (dictGet m "source".toList)

/-- `m.get("Name") or m.get("name")`. -/
def mountName (m : Obj) : Option Str :=
  pyOrOpt (dictGet m "Name".toList) (dictGet m "name".toList)

/-- The classification step of the mount loop in `backup_volumes_for_service`
(compose_backup.py lines 142-183): `none` models `continue` (missing
destination, volume without name, bind without source, other mount types);
otherwise the dedup key, output file name and helper-container mount spec. -/
def mountPlan (m : Obj) : Option (Str × Str × Str) :=
  if pyTruthy (mountDest m) = false then none
  else if mountType m == "volume".toList && pyTruthy (mountName m) then
    some ("volume::".toList ++ (mountName m).getD [],
      "volume__".toList ++ (mountName m).getD [] ++ ".tar.gz".toList,
      (mountName m).getD [] ++ ":/_backup_src".toList)
  else if mountType m == "bind".toList && pyTruthy (mountSrc m) then
    some ("bind::".toList ++ (mountSrc m).getD [],
      "bind__".toList ++ safe_filename_for_bind ((mountSrc m).getD []) ++ ".tar.gz".toList,
      (mountSrc m).getD [] ++ ":/_backup_src".toList)
  else none

/-- One iteration of the mount loop: state is `(written files, seen_vols)`;
`archive` models `docker_tar_mount_source` (`none` = both helper images
failed). The dedup check precedes the archive attempt, and only a successful
archive extends the state. -/
def volStep (archive : Str → Option Str) (st : List Str × List Str) (m : Obj) :
    List Str × List Str :=
  match mountPlan m with
  | none => st
  | some (key, outName, spec) =>
    if st.2.contains key then st
    else
      match archive spec with
      | none => st
      | some _ => (st.1 ++ [outName], st.2 ++ [key])

/-- C8: a mount lacking a (truthy) destination is skipped outright — even a
volume or bind mount — as are volume mounts without a name and bind mounts
without a source; no archive output and no dedup-state change occurs for
them, and a produced plan always has a truthy destination and a well-formed
volume or bind shape. -/
theorem C8_mount_skipping :
    (∀ m : Obj, pyTruthy (mountDest m) = false →
      mountPlan m = none ∧
        ∀ (archive : Str → Option Str) (st : List Str × List Str),
          volStep archive st m = st) ∧
    (∀ m : Obj, mountType m = "volume".toList → pyTruthy (mountName m) = false →
      mountPlan m = none ∧
        ∀ (archive : Str → Option Str) (st : List Str × List Str),
          volStep archive st m = st) ∧
    (∀ m : Obj, mountType m = "bind".toList → pyTruthy (mountSrc m) = false →
      mountPlan m = none ∧
        ∀ (archive : Str → Option Str) (st : List Str × List Str),
          volStep archive st m = st) ∧
    (∀ (m : Obj) (plan : Str × Str × Str), mountPlan m = some plan →
      pyTruthy (mountDest m) = true ∧
        ((mountType m = "volume".toList ∧ pyTruthy (mountName m) = true) ∨
         (mountType m = "bind".toList ∧ pyTruthy (mountSrc m) = true))) := by
  have hstep : ∀ m : Obj, mountPlan m = none →
      ∀ (archive : Str → Option Str) (st : List Str × List Str), volStep archive st m = st := by
    intro m hm archive st
    simp [volStep, hm]
  refine ⟨?_, ?_, ?_, ?_⟩
  · intro m hdest
    have hplan : mountPlan m = none := by
      unfold mountPlan
      rw [if_pos hdest]
    exact ⟨hplan, hstep m hplan⟩
  · intro m htype hname
    have hplan : mountPlan m = none := by
      by_cases hdest : pyTruthy (mountDest m) = false
      · unfold mountPlan
        rw [if_pos hdest]
      · have hvol : ¬((mountType m == "volume".toList && pyTruthy (mountName m)) = true) := by
          intro hcon
          rcases Bool.and_eq_true_iff.mp hcon with ⟨-, h⟩
          rw [hname] at h
          exact Bool.false_ne_true h
        have hbind : ¬((mountType m == "bind".toList && pyTruthy (mountSrc m)) = true) := by
          intro hcon
          rcases Bool.and_eq_true_iff.mp hcon with ⟨h, -⟩
          rw [htype] at h
          exact absurd h (by decide)
        unfold mountPlan
        rw [if_neg hdest, if_neg hvol, if_neg hbind]
    exact ⟨hplan, hstep m hplan⟩
  · intro m htype hsrc
    have hplan : mountPlan m = none := by
      by_cases hdest : pyTruthy (mountDest m) = false
      · unfold mountPlan
        rw [if_pos hdest]
      · have hvol : ¬((mountType m == "volume".toList && pyTruthy (mountName m)) = true) := by
          intro hcon
          rcases Bool.and_eq_true_iff.mp hcon with ⟨h, -⟩
          rw [htype] at h
          exact absurd h (by decide)
        have hbind : ¬((mountType m == "bind".toList && pyTruthy (mountSrc m)) = true) := by
          intro hcon
          rcases Bool.and_eq_true_iff.mp hcon with ⟨-, h⟩
          rw [hsrc] at h
          exact Bool.false_ne_true h
        unfold mountPlan
        rw [if_neg hdest, if_neg hvol, if_neg hbind]
    exact ⟨hplan, hstep m hplan⟩
  · intro m plan hplan
    unfold mountPlan at hplan
    by_cases hdest : pyTruthy (mountDest m) = false
    · rw [if_pos hdest] at hplan
      exact absurd hplan (by simp)
    · have hdest' : pyTruthy (mountDest m) = true := by
        cases h : pyTruthy (mountDest m)
        · exact absurd h hdest
        · rfl
      refine ⟨hdest', ?_⟩
      rw [if_neg hdest] at hplan
      by_cases hvol : (mountType m == "volume".toList && pyTruthy (mountName m)) = true
      · rcases Bool.and_eq_true_iff.mp hvol with ⟨ht, hn⟩
        exact Or.inl ⟨by simpa using ht, hn⟩
      · rw [if_neg hvol] at hplan
        by_cases hbind : (mountType m == "bind".toList && pyTruthy (mountSrc m)) = true
        · rcases Bool.and_eq_true_iff.mp hbind with ⟨ht, hs⟩
          exact Or.inr ⟨by simpa using ht, hs⟩
        · rw [if_neg hbind] at hplan
          exact absurd hplan (by simp)

/-- C8 witness: a volume mount without a destination field is skipped with no
state change. -/
theorem C8_mount_skipping_witness :
    volStep (fun _ => some []) (["f".toList], ["k".toList])
      [("Type".toList, "volume".toList), ("Name".toList, "v".toList)] =
      (["f".toList], ["k".toList]) :=
  (C8_mount_skipping.1
    [("Type".toList, "volume".toList), ("Name".toList, "v".toList)] (by decide)).2
    (fun _ => some []) (["f".toList], ["k".toList])

/- ### Service-to-container resolution (`map_services_to_containers`) -/

/-- The compose service label token `com.docker.compose.service=<svc>`. -/
def labelToken (svc : Str) : Str := "com.docker.compose.service=".toList ++ svc

/-- `mapping[svc].append(name)` on the association-list model of the dict. -/
def bumpAssoc (m : List (Str × List Str)) (svc : Str) (n : Str) : List (Str × List Str) :=
  m.map (fun p => if p.1 = svc then (p.1, p.2 ++ [n]) else p)

/-- `{s: [] for s in target_services}`: unique keys in first-occurrence
order, each bound to the empty list. -/
def initMapping (targets : List Str) : List (Str × List Str) :=
  (targets.foldl (fun acc s => if acc.contains s then acc else acc ++ [s]) []).map
    (fun s => (s, []))

/-- One `compose ps` entry of the primary pass: if the entry's service (under
either capitalization) is a target and the name is truthy, append the name. -/
def primStep (m : List (Str × List Str)) (item : Obj) : List (Str × List Str) :=
  let svc := pyOrOpt (dictGet item "Service".toList) (dictGet item "service".toList)
  let nm := pyOrOpt (dictGet item "Name".toList) (dictGet item "name".toList)
  match svc with
  | none => m
  | some s =>
    if (List.lookup s m).isSome && pyTruthy nm then bumpAssoc m s (nm.getD []) else m

/-- The primary (`compose ps`) pass; `none` models a failed `compose ps` or a
non-list JSON result. -/
def primaryMapping (ps? : Option (List Obj)) (targets : List Str) :
    List (Str × List Str) :=
  match ps? with
  | none => initMapping targets
  | some ps => ps.foldl primStep (initMapping targets)

/-- The fallback's per-service test: the label token occurs in the line's
label string and the line's name is truthy. -/
def fbMatch (obj : Obj) (svc : Str) : Bool :=
  containsSeq (labelToken svc) (pyOrD (dictGet obj "Labels".toList) []) &&
    pyTruthy (pyOrOpt (dictGet obj "Names".toList) (dictGet obj "Name".toList))

/-- One `docker ps` line of the fallback pass: the first still-unresolved
service matching the line receives the line's container name and leaves the
unresolved list (the `break` in the source); `none` models an unparseable
line (`json.loads` failure, `continue`). -/
def fbStep (st : List (Str × List Str) × List Str) (line? : Option Obj) :
    List (Str × List Str) × List Str :=
  match line? with
  | none => st
  | some obj =>
    match st.2.find? (fun svc => fbMatch obj svc) with
    | none => st
    | some svc =>
      (bumpAssoc st.1 svc
          ((pyOrOpt (dictGet obj "Names".toList) (dictGet obj "Name".toList)).getD []),
        st.2.erase svc)

/-- `map_services_to_containers` (compose_backup.py lines 65-97,
compose_mysql_backup.py lines 63-95): primary pass over the `compose ps`
JSON, then the label-matching fallback over `docker ps` lines (exit code
`dockerCode`) for services still without containers. -/
def map_services_to_containers (ps? : Option (List Obj)) (dockerCode : Int)
    (dockerLines : List (Option Obj)) (targets : List Str) : List (Str × List Str) :=
  let mapping := primaryMapping ps? targets
  let remaining := (mapping.filter (fun p => p.2.isEmpty)).map Prod.fst
  if remaining.isEmpty then mapping
  else if dockerCode = 0 then (dockerLines.foldl fbStep (mapping, remaining)).1
  else mapping

/-- C5 counterexample: with two unresolved services `a`, `b` and a first
`docker ps` line whose label string contains both service tokens, the inner
loop's `break` hands that line to `a` only; `b` then receives the second
line's container `c2`, although the first live container whose label string
contains `com.docker.compose.service=b` (with a truthy name) is `c1`.  So the
fallback does not always append "the first live container whose label string
contains the token". -/
theorem C5_counterexample :
    map_services_to_containers (some []) 0
        [some [("Labels".toList,
            "com.docker.compose.service=a,com.docker.compose.service=b".toList),
            ("Names".toList, "c1".toList)],
         some [("Labels".toList, "com.docker.compose.service=b".toList),
            ("Names".toList, "c2".toList)]]
        ["a".toList, "b".toList] =
      [("a".toList, ["c1".toList]), ("b".toList, ["c2".toList])] ∧
    fbMatch [("Labels".toList,
        "com.docker.compose.service=a,com.docker.compose.service=b".toList),
        ("Names".toList, "c1".toList)] "b".toList = true ∧
    pyOrOpt
        (dictGet [("Labels".toList,
          "com.docker.compose.service=a,com.docker.compose.service=b".toList),
          ("Names".toList, "c1".toList)] "Names".toList)
        (dictGet [("Labels".toList,
          "com.docker.compose.service=a,com.docker.compose.service=b".toList),
          ("Names".toList, "c1".toList)] "Name".toList) = some "c1".toList ∧
    ("c2".toList : Str) ≠ "c1".toList := by
  refine ⟨by decide, by decide, by decide, by decide⟩

theorem lookup_bumpAssoc (m : List (Str × List Str)) (v n s : Str) :
    List.lookup s (bumpAssoc m v n) =
      (List.lookup s m).map (fun l => if s = v then l ++ [n] else l) := by
  induction m with
  | nil => rfl
  | cons p t ih =>
    rcases p with ⟨k, l⟩
    have hbump : bumpAssoc ((k, l) :: t) v n =
        (if k = v then (k, l ++ [n]) else (k, l)) :: bumpAssoc t v n := rfl
    rw [hbump]
    by_cases hk : k = v
    · rw [if_pos hk]
      by_cases hs : s = k
      · rw [List.lookup_cons, List.lookup_cons]
        simp [hs, hk]
      · have hbeq : (s == k) = false := by simpa using hs
        rw [List.lookup_cons, List.lookup_cons]
        simp [hbeq, ih]
    · rw [if_neg hk]
      by_cases hs : s = k
      · rw [List.lookup_cons, List.lookup_cons]
        simp [hs, hk]
      · have hbeq : (s == k) = false := by simpa using hs
        rw [List.lookup_cons, List.lookup_cons]
        simp [hbeq, ih]

theorem keys_bumpAssoc (m : List (Str × List Str)) (v n : Str) :
    (bumpAssoc m v n).map Prod.fst = m.map Prod.fst := by
  unfold bumpAssoc
  rw [List.map_map]
  apply List.map_congr_left
  intro p _
  by_cases h : p.1 = v <;> simp [h]

theorem keys_primStep (m : List (Str × List Str)) (item : Obj) :
    (primStep m item).map Prod.fst = m.map Prod.fst := by
  simp only [primStep]
  split
  · rfl
  · split
    · exact keys_bumpAssoc _ _ _
    · rfl

theorem keys_primaryMapping (ps? : Option (List Obj)) (targets : List Str) :
    (primaryMapping ps? targets).map Prod.fst =
      targets.foldl (fun acc s => if acc.contains s then acc else acc ++ [s]) [] := by
  have hinit : (initMapping targets).map Prod.fst =
      targets.foldl (fun acc s => if acc.contains s then acc else acc ++ [s]) [] := by
    unfold initMapping
    rw [List.map_map]
    have hid : (Prod.fst ∘ fun s : Str => (s, ([] : List Str))) = fun s => s := rfl
    rw [hid]
    simp
  unfold primaryMapping
  cases ps? with
  | none => exact hinit
  | some ps =>
    have hfold : ∀ (ps : List Obj) (m : List (Str × List Str)),
        (ps.foldl primStep m).map Prod.fst = m.map Prod.fst := by
      intro ps
      induction ps with
      | nil => intro m; rfl
      | cons it rest ih =>
        intro m
        rw [List.foldl_cons, ih, keys_primStep]
    rw [hfold]
    exact hinit

theorem nodup_dedupFold (ts : List Str) : ∀ acc : List Str, acc.Nodup →
    (ts.foldl (fun acc s => if acc.contains s then acc else acc ++ [s]) acc).Nodup := by
  induction ts with
  | nil => intro acc h; exact h
  | cons s rest ih =>
    intro acc h
    rw [List.foldl_cons]
    by_cases hc : acc.contains s
    · rw [if_pos hc]
      exact ih acc h
    · rw [if_neg hc]
      apply ih
      apply List.Nodup.append h (List.nodup_singleton s)
      intro x hx hxs
      rw [List.mem_singleton] at hxs
      subst hxs
      exact hc (by simpa using hx)

theorem nodup_keys_primaryMapping (ps? : Option (List Obj)) (targets : List Str) :
    ((primaryMapping ps? targets).map Prod.fst).Nodup := by
  rw [keys_primaryMapping]
  exact nodup_dedupFold targets [] List.nodup_nil

theorem lookup_eq_of_mem_nodup {m : List (Str × List Str)}
    (hnd : (m.map Prod.fst).Nodup) {s : Str} {l : List Str}
    (h : (s, l) ∈ m) : List.lookup s m = some l := by
  induction m with
  | nil => cases h
  | cons p t ih =>
    rcases p with ⟨k, v⟩
    rw [List.map_cons] at hnd
    rcases List.mem_cons.mp h with h | h
    · injection h with h1 h2
      subst h1
      subst h2
      simp [List.lookup]
    · have hs : s ∈ t.map Prod.fst := List.mem_map.mpr ⟨(s, l), h, rfl⟩
      have hk : k ∉ t.map Prod.fst := (List.nodup_cons.mp hnd).1
      have hne : s ≠ k := fun he => hk (he ▸ hs)
      have hbeq : (s == k) = false := by simpa using hne
      simp only [List.lookup, hbeq]
      exact ih (List.nodup_cons.mp hnd).2 h

/-- The invariant of the fallback loop: unresolved services are distinct,
each unresolved service is empty in the primary mapping, and every service's
entry either still equals its primary value or (when the primary value was
empty) consists of at most one container taken from a matching line. -/
def FbInv (M0 : List (Str × List Str)) (bigLines : List (Option Obj))
    (st : List (Str × List Str) × List Str) : Prop :=
  st.2.Nodup ∧
  (∀ svc ∈ st.2, List.lookup svc M0 = some []) ∧
  (∀ svc lst, List.lookup svc M0 = some lst →
    (svc ∈ st.2 → List.lookup svc st.1 = some []) ∧
    (svc ∉ st.2 →
      (lst ≠ [] → List.lookup svc st.1 = some lst) ∧
      (lst = [] → List.lookup svc st.1 = some [] ∨
        ∃ c obj, List.lookup svc st.1 = some [c] ∧ some obj ∈ bigLines ∧
          fbMatch obj svc = true ∧
          pyOrOpt (dictGet obj "Names".toList) (dictGet obj "Name".toList) = some c)))

theorem fbStep_inv {M0 : List (Str × List Str)} {bigLines : List (Option Obj)}
    {st : List (Str × List Str) × List Str} {line? : Option Obj}
    (hline : line? ∈ bigLines) (hinv : FbInv M0 bigLines st) :
    FbInv M0 bigLines (fbStep st line?) := by
  obtain ⟨hnd, hmem0, hmain⟩ := hinv
  cases line? with
  | none => exact ⟨hnd, hmem0, hmain⟩
  | some obj =>
    cases hfind : st.2.find? (fun svc => fbMatch obj svc) with
    | none =>
      simp only [fbStep, hfind]
      exact ⟨hnd, hmem0, hmain⟩
    | some v =>
      simp only [fbStep, hfind]
      have hv2 : v ∈ st.2 := List.mem_of_find?_eq_some hfind
      have hmatch : fbMatch obj v = true := List.find?_some hfind
      have hname : pyOrOpt (dictGet obj "Names".toList) (dictGet obj "Name".toList) =
          some ((pyOrOpt (dictGet obj "Names".toList) (dictGet obj "Name".toList)).getD []) := by
        have hm := hmatch
        unfold fbMatch at hm
        rcases Bool.and_eq_true_iff.mp hm with ⟨-, ht⟩
        exact getD_eq_of_truthy ht
      refine ⟨List.Nodup.erase v hnd, ?_, ?_⟩
      · intro svc hsvc
        exact hmem0 svc (List.mem_of_mem_erase hsvc)
      · intro svc lst hlook
        have hbump := lookup_bumpAssoc st.1 v
          ((pyOrOpt (dictGet obj "Names".toList) (dictGet obj "Name".toList)).getD []) svc
        constructor
        · intro hsvc
          have h' := (List.Nodup.mem_erase_iff hnd).mp hsvc
          have hold : List.lookup svc st.1 = some [] := (hmain svc lst hlook).1 h'.2
          show List.lookup svc (bumpAssoc st.1 v _) = some []
          rw [hbump, hold]
          simp [h'.1]
        · intro hsvc
          by_cases hveq : svc = v
          · subst hveq
            have hlst : lst = [] := Option.some.inj (hlook.symm.trans (hmem0 svc hv2))
            constructor
            · intro hne
              exact absurd hlst hne
            · intro _
              right
              refine ⟨(pyOrOpt (dictGet obj "Names".toList)
                  (dictGet obj "Name".toList)).getD [], obj, ?_, hline, hmatch, hname⟩
              have hold : List.lookup svc st.1 = some [] := (hmain svc lst hlook).1 hv2
              show List.lookup svc (bumpAssoc st.1 svc _) = some _
              rw [hbump, hold]
              simp
          · have hnotin : svc ∉ st.2 := by
              intro hcon
              exact hsvc ((List.Nodup.mem_erase_iff hnd).mpr ⟨hveq, hcon⟩)
            have hold := (hmain svc lst hlook).2 hnotin
            constructor
            · intro hne
              show List.lookup svc (bumpAssoc st.1 v _) = some lst
              rw [hbump, hold.1 hne]
              simp [hveq]
            · intro hl
              rcases hold.2 hl with h | ⟨c, o, hlk, ho, hm, hn⟩
              · left
                show List.lookup svc (bumpAssoc st.1 v _) = some []
                rw [hbump, h]
                simp [hveq]
              · right
                refine ⟨c, o, ?_, ho, hm, hn⟩
                show List.lookup svc (bumpAssoc st.1 v _) = some [c]
                rw [hbump, hlk]
                simp [hveq]

theorem fbFold_inv {M0 : List (Str × List Str)} {bigLines : List (Option Obj)} :
    ∀ (lines : List (Option Obj)) (st : List (Str × List Str) × List Str),
      (∀ x ∈ lines, x ∈ bigLines) → FbInv M0 bigLines st →
      FbInv M0 bigLines (lines.foldl fbStep st) := by
  intro lines
  induction lines with
  | nil => intro st _ h; exact h
  | cons a rest ih =>
    intro st hsub h
    rw [List.foldl_cons]
    exact ih (fbStep st a) (fun x hx => hsub x (List.mem_cons_of_mem a hx))
      (fbStep_inv (hsub a (List.mem_cons_self a rest)) h)

theorem fbInv_init (ps? : Option (List Obj)) (targets : List Str)
    (bigLines : List (Option Obj)) :
    FbInv (primaryMapping ps? targets) bigLines
      (primaryMapping ps? targets,
        ((primaryMapping ps? targets).filter (fun p => p.2.isEmpty)).map Prod.fst) := by
  have hnd : ((primaryMapping ps? targets).map Prod.fst).Nodup :=
    nodup_keys_primaryMapping ps? targets
  have hmem : ∀ svc ∈ ((primaryMapping ps? targets).filter
      (fun p => p.2.isEmpty)).map Prod.fst,
      List.lookup svc (primaryMapping ps? targets) = some [] := by
    intro svc hsvc
    rcases List.mem_map.mp hsvc with ⟨⟨a, b⟩, hp, hfst⟩
    rcases List.mem_filter.mp hp with ⟨hpm, hpe⟩
    have hb : b = [] := List.isEmpty_iff.mp hpe
    subst hb
    cases hfst
    exact lookup_eq_of_mem_nodup hnd hpm
  refine ⟨?_, hmem, ?_⟩
  · have hsub : List.Sublist
        (((primaryMapping ps? targets).filter (fun p => p.2.isEmpty)).map Prod.fst)
        ((primaryMapping ps? targets).map Prod.fst) :=
      List.Sublist.map Prod.fst (List.filter_sublist _)
    exact List.Sublist.nodup hsub hnd
  · intro svc lst hlook
    refine ⟨fun hsvc => hmem svc hsvc, fun _ => ⟨fun _ => hlook, fun hl => ?_⟩⟩
    left
    rw [hl] at hlook
    exact hlook

/-- Unfolding equation for `map_services_to_containers`. -/
theorem map_services_def (ps? : Option (List Obj)) (dockerCode : Int)
    (dockerLines : List (Option Obj)) (targets : List Str) :
    map_services_to_containers ps? dockerCode dockerLines targets =
      if (((primaryMapping ps? targets).filter (fun p => p.2.isEmpty)).map Prod.fst).isEmpty
      then primaryMapping ps? targets
      else if dockerCode = 0 then
        (dockerLines.foldl fbStep (primaryMapping ps? targets,
          ((primaryMapping ps? targets).filter (fun p => p.2.isEmpty)).map Prod.fst)).1
      else primaryMapping ps? targets := rfl

/-- C5 (amended): each target service keeps exactly its primary-pass container
list when that list is nonempty; a service whose primary list is empty either
stays empty or receives exactly one container via the fallback — a live
container whose label string contains `com.docker.compose.service=<name>` and
whose name field is truthy — and never a second one. -/
theorem C5_container_resolution (ps? : Option (List Obj)) (dockerCode : Int)
    (dockerLines : List (Option Obj)) (targets : List Str) :
    ∀ svc lst, List.lookup svc (primaryMapping ps? targets) = some lst →
      (lst ≠ [] →
        List.lookup svc (map_services_to_containers ps? dockerCode dockerLines targets) =
          some lst) ∧
      (lst = [] →
        List.lookup svc (map_services_to_containers ps? dockerCode dockerLines targets) =
          some [] ∨
        ∃ c obj,
          List.lookup svc (map_services_to_containers ps? dockerCode dockerLines targets) =
            some [c] ∧ some obj ∈ dockerLines ∧ fbMatch obj svc = true ∧
          pyOrOpt (dictGet obj "Names".toList) (dictGet obj "Name".toList) = some c) := by
  intro svc lst hlook
  rw [map_services_def]
  by_cases hrem : (((primaryMapping ps? targets).filter
      (fun p => p.2.isEmpty)).map Prod.fst).isEmpty
  · rw [if_pos hrem]
    exact ⟨fun _ => hlook, fun hl => Or.inl (by rw [← hl]; exact hlook)⟩
  · rw [if_neg hrem]
    by_cases hcode : dockerCode = 0
    · rw [if_pos hcode]
      have hinv := fbFold_inv dockerLines
        (primaryMapping ps? targets,
          ((primaryMapping ps? targets).filter (fun p => p.2.isEmpty)).map Prod.fst)
        (fun x hx => hx) (fbInv_init ps? targets dockerLines)
      obtain ⟨hnd, hmem0, hmain⟩ := hinv
      have h3 := hmain svc lst hlook
      by_cases hin : svc ∈ (dockerLines.foldl fbStep (primaryMapping ps? targets,
          ((primaryMapping ps? targets).filter (fun p => p.2.isEmpty)).map Prod.fst)).2
      · have hempty := hmem0 svc hin
        have hlst : lst = [] := Option.some.inj (hlook.symm.trans hempty)
        exact ⟨fun hne => absurd hlst hne, fun _ => Or.inl (h3.1 hin)⟩
      · exact ⟨(h3.2 hin).1, (h3.2 hin).2⟩
    · rw [if_neg hcode]
      exact ⟨fun _ => hlook, fun hl => Or.inl (by rw [← hl]; exact hlook)⟩

/-- C5 witness: with one target resolved by the primary pass, the final
mapping keeps exactly the primary list. -/
theorem C5_container_resolution_witness :
    List.lookup "a".toList
      (map_services_to_containers
        (some [[("Service".toList, "a".toList), ("Name".toList, "c1".toList)]])
        1 [] ["a".toList]) = some ["c1".toList] :=
  (C5_container_resolution
    (some [[("Service".toList, "a".toList), ("Name".toList, "c1".toList)]])
    1 [] ["a".toList] "a".toList ["c1".toList] (by decide)).1 (by decide)

/- ### Database backup with run-wide dedup (`backup_service_containers`) -/

/-- A running container as the scripts observe it: its name, its inspected
environment, the exit code and stdout of the `SHOW DATABASES` query, and the
outcome of `mysqldump` per database name (`none` = non-zero exit or missing
executable). -/
structure ContainerInfo where
  cid : Str
  env : List (Str × Str)
  dbCode : Int
  dbOut : Str
  dump : Str → Option Str

/-- The state threaded through `backup_service_containers`: the run-wide
`seen_dbs` set, the `(database, container)` pairs successfully written to
`<database>.sql` files, and the `[SKIP]` log events `(database, container)`. -/
structure BackupState where
  seen : List Str
  written : List (Str × Str)
  skips : List (Str × Str)

/-- The inner per-database loop body (compose_backup.py lines 293-306,
compose_mysql_backup.py lines 172-185): a name already in `seen_dbs` logs a
skip, a failed dump logs an error and changes nothing, and a successful dump
writes the file and then extends `seen_dbs`. -/
def dumpDbStep (c : ContainerInfo) (st : BackupState) (db : Str) : BackupState :=
  if st.seen.contains db then { st with skips := st.skips ++ [(db, c.cid)] }
  else
    match c.dump db with
    | none => st
    | some _ => { st with written := st.written ++ [(db, c.cid)], seen := st.seen ++ [db] }

/-- The per-container body: containers without resolvable credentials or with
no user databases are skipped with a warning, otherwise the inner loop runs
over the enumerated databases. -/
def containerStep (st : BackupState) (c : ContainerInfo) : BackupState :=
  match resolve_mysql_credentials c.env with
  | none => st
  | some _ =>
    let dbs := list_databases c.dbCode c.dbOut
    if dbs.isEmpty then st else dbs.foldl (dumpDbStep c) st

/-- `backup_service_containers` for one service (compose_backup.py lines
278-307, compose_mysql_backup.py lines 159-186), with the external calls
modelled by the `ContainerInfo` fields and `seen0` the incoming run-wide
dedup set. -/
def backup_service_containers (containers : List ContainerInfo) (seen0 : List Str) :
    BackupState :=
  containers.foldl containerStep ⟨seen0, [], []⟩

/-- The database names a container contributes: its enumerated list, or
nothing when no credentials resolve. -/
def enumDbs (c : ContainerInfo) : List Str :=
  match resolve_mysql_credentials c.env with
  | none => []
  | some _ => list_databases c.dbCode c.dbOut

/-- All `(database, container)` occurrences of a run, in processing order. -/
def occurrences : List ContainerInfo → List (Str × Str)
  | [] => []
  | c :: rest => (enumDbs c).map (fun db => (db, c.cid)) ++ occurrences rest

/-- The occurrences of one database name, in order. -/
def pairsFor (l : List (Str × Str)) (db : Str) : List (Str × Str) :=
  l.filter (fun p => p.1 == db)

theorem pairsFor_append (a b : List (Str × Str)) (db : Str) :
    pairsFor (a ++ b) db = pairsFor a db ++ pairsFor b db := by
  simp [pairsFor, List.filter_append]

theorem contains_append_right (l : List Str) (d db : Str) :
    (l ++ [d]).contains db = (l.contains db || decide (db = d)) := by
  induction l with
  | nil => simp [List.contains_cons]
  | cons a t ih => simp [List.contains_cons, ih, Bool.or_assoc]

theorem dumpFold_spec (c : ContainerInfo) (hdump : ∀ db, (c.dump db).isSome = true) :
    ∀ (dbs : List Str) (st : BackupState) (db : Str),
      ((dbs.foldl (dumpDbStep c) st).seen.contains db
          = (st.seen.contains db || dbs.contains db)) ∧
      (pairsFor (dbs.foldl (dumpDbStep c) st).written db
          = pairsFor st.written db ++
            (if st.seen.contains db then []
             else ((dbs.filter (fun x => x == db)).map (fun x => (x, c.cid))).take 1)) ∧
      (pairsFor (dbs.foldl (dumpDbStep c) st).skips db
          = pairsFor st.skips db ++
            (if st.seen.contains db
             then (dbs.filter (fun x => x == db)).map (fun x => (x, c.cid))
             else ((dbs.filter (fun x => x == db)).map (fun x => (x, c.cid))).drop 1)) := by
  intro dbs
  induction dbs with
  | nil =>
    intro st db
    refine ⟨by simp, by simp, by simp⟩
  | cons d rest ih =>
    intro st db
    rw [List.foldl_cons]
    by_cases hseen : d ∈ st.seen
    · have hstep : dumpDbStep c st d = { st with skips := st.skips ++ [(d, c.cid)] } := by
        simp [dumpDbStep, hseen]
      rw [hstep]
      obtain ⟨ihs, ihw, ihk⟩ := ih { st with skips := st.skips ++ [(d, c.cid)] } db
      by_cases hdb : d = db
      · subst hdb
        refine ⟨?_, ?_, ?_⟩
        · rw [ihs]
          simp [hseen, List.contains_cons]
        · rw [ihw]
          simp [hseen, List.filter_cons]
        · rw [ihk]
          simp [hseen, List.filter_cons, pairsFor, List.filter_append]
      · have hdb' : (d == db) = false := by simpa using hdb
        refine ⟨?_, ?_, ?_⟩
        · rw [ihs]
          simp [List.contains_cons, Ne.symm hdb]
        · rw [ihw]
          simp [List.filter_cons, hdb']
        · rw [ihk]
          simp [List.filter_cons, hdb', pairsFor, List.filter_append, Ne.symm hdb]
    · rcases Option.isSome_iff_exists.mp (hdump d) with ⟨blob, hd⟩
      have hstep : dumpDbStep c st d =
          { st with written := st.written ++ [(d, c.cid)], seen := st.seen ++ [d] } := by
        simp [dumpDbStep, hseen, hd]
      rw [hstep]
      obtain ⟨ihs, ihw, ihk⟩ :=
        ih { st with written := st.written ++ [(d, c.cid)], seen := st.seen ++ [d] } db
      by_cases hdb : d = db
      · subst hdb
        refine ⟨?_, ?_, ?_⟩
        · rw [ihs]
          simp [hseen, List.contains_cons]
        · rw [ihw]
          simp [hseen, List.filter_cons, pairsFor, List.filter_append]
        · rw [ihk]
          simp [hseen, List.filter_cons, pairsFor, List.filter_append]
      · have hdb' : (d == db) = false := by simpa using hdb
        refine ⟨?_, ?_, ?_⟩
        · rw [ihs]
          simp [List.contains_cons, Ne.symm hdb]
        · rw [ihw]
          simp [List.filter_cons, hdb', pairsFor, List.filter_append, Ne.symm hdb]
        · rw [ihk]
          simp [List.filter_cons, hdb', pairsFor, List.filter_append, Ne.symm hdb]

theorem contains_eq_filter (dbs : List Str) (db : Str) :
    dbs.contains db = !((dbs.filter (fun x => x == db)).isEmpty) := by
  induction dbs with
  | nil => rfl
  | cons a t ih =>
    by_cases h : a = db
    · subst h
      simp [List.contains_cons, List.filter_cons]
    · have h' : (a == db) = false := by simpa using h
      have h2 : (db == a) = false := by simpa using Ne.symm h
      simp only [List.contains_cons, List.filter_cons, h', h2, Bool.false_eq_true, if_false,
        Bool.false_or]
      simpa using ih

theorem occ_cons_pairsFor (c : ContainerInfo) (cs : List ContainerInfo) (db : Str) :
    pairsFor (occurrences (c :: cs)) db =
      ((enumDbs c).filter (fun x => x == db)).map (fun x => (x, c.cid)) ++
        pairsFor (occurrences cs) db := by
  rw [occurrences, pairsFor_append]
  congr 1
  unfold pairsFor
  rw [List.filter_map]
  rfl

theorem containerFold_spec :
    ∀ (containers : List ContainerInfo),
      (∀ c ∈ containers, ∀ db, (c.dump db).isSome = true) →
      ∀ (st : BackupState) (db : Str),
        ((containers.foldl containerStep st).seen.contains db
            = (st.seen.contains db || !(pairsFor (occurrences containers) db).isEmpty)) ∧
        (pairsFor (containers.foldl containerStep st).written db
            = pairsFor st.written db ++
              (if st.seen.contains db then []
               else (pairsFor (occurrences containers) db).take 1)) ∧
        (pairsFor (containers.foldl containerStep st).skips db
            = pairsFor st.skips db ++
              (if st.seen.contains db then pairsFor (occurrences containers) db
               else (pairsFor (occurrences containers) db).drop 1)) := by
  intro containers
  induction containers with
  | nil =>
    intro _ st db
    refine ⟨by simp [occurrences, pairsFor], by simp [occurrences, pairsFor],
      by simp [occurrences, pairsFor]⟩
  | cons c cs ih =>
    intro hdump st db
    have hdc : ∀ d, (c.dump d).isSome = true := hdump c (List.mem_cons_self c cs)
    have hdcs : ∀ c' ∈ cs, ∀ d, (c'.dump d).isSome = true :=
      fun c' hc' => hdump c' (List.mem_cons_of_mem c hc')
    rw [List.foldl_cons, occ_cons_pairsFor]
    cases hcred : resolve_mysql_credentials c.env with
    | none =>
      have henum : enumDbs c = [] := by simp [enumDbs, hcred]
      have hstep : containerStep st c = st := by simp [containerStep, hcred]
      rw [hstep, henum]
      obtain ⟨is, iw, ik⟩ := ih hdcs st db
      exact ⟨by rw [is]; simp, by rw [iw]; simp, by rw [ik]; simp⟩
    | some creds =>
      have henum : enumDbs c = list_databases c.dbCode c.dbOut := by
        simp [enumDbs, hcred]
      rw [henum]
      cases hdbs : list_databases c.dbCode c.dbOut with
      | nil =>
        have hstep : containerStep st c = st := by
          simp [containerStep, hcred, hdbs]
        rw [hstep]
        obtain ⟨is, iw, ik⟩ := ih hdcs st db
        exact ⟨by rw [is]; simp, by rw [iw]; simp, by rw [ik]; simp⟩
      | cons x xs =>
        have hstep : containerStep st c = (x :: xs).foldl (dumpDbStep c) st := by
          simp [containerStep, hcred, hdbs]
        rw [hstep]
        obtain ⟨ds, dw, dk⟩ := dumpFold_spec c hdc (x :: xs) st db
        obtain ⟨is, iw, ik⟩ := ih hdcs ((x :: xs).foldl (dumpDbStep c) st) db
        by_cases hs : st.seen.contains db = true
        · refine ⟨?_, ?_, ?_⟩
          · rw [is, ds, hs]
            simp
          · rw [iw, dw, ds, hs]
            simp
          · rw [ik, dk, ds, hs]
            simp
        · have hs' : st.seen.contains db = false := by
            cases h : st.seen.contains db
            · rfl
            · exact absurd h hs
          refine ⟨?_, ?_, ?_⟩
          · rw [is, ds, hs', contains_eq_filter]
            cases hF : (x :: xs).filter (fun t => t == db) with
            | nil => simp [hF]
            | cons a F => simp [hF]
          · rw [iw, dw, ds, hs']
            cases hF : (x :: xs).filter (fun t => t == db) with
            | nil =>
              have hcont : (x :: xs).contains db = false := by
                rw [contains_eq_filter, hF]
                rfl
              rw [hcont]
              simp
            | cons a F =>
              have hcont : (x :: xs).contains db = true := by
                rw [contains_eq_filter, hF]
                rfl
              rw [hcont]
              simp
          · rw [ik, dk, ds, hs']
            cases hF : (x :: xs).filter (fun t => t == db) with
            | nil =>
              have hcont : (x :: xs).contains db = false := by
                rw [contains_eq_filter, hF]
                rfl
              rw [hcont]
              simp
            | cons a F =>
              have hcont : (x :: xs).contains db = true := by
                rw [contains_eq_filter, hF]
                rfl
              rw [hcont]
              simp

/-- C1: in a run whose dumps succeed, each database name not already in the
incoming dedup set is dumped and written exactly once — at its first
occurrence in processing order — every later occurrence (in particular every
occurrence from a second container) is logged as a skip attributed to its
container, and the dedup set ends up extended with exactly the enumerated
names. -/
theorem C1_dedup_exactly_once (containers : List ContainerInfo) (seen0 : List Str)
    (hdump : ∀ c ∈ containers, ∀ db, (c.dump db).isSome = true) :
    ∀ db : Str,
      (pairsFor (backup_service_containers containers seen0).written db
          = if seen0.contains db then []
            else (pairsFor (occurrences containers) db).take 1) ∧
      (pairsFor (backup_service_containers containers seen0).skips db
          = if seen0.contains db then pairsFor (occurrences containers) db
            else (pairsFor (occurrences containers) db).drop 1) ∧
      ((backup_service_containers containers seen0).seen.contains db
          = (seen0.contains db || !(pairsFor (occurrences containers) db).isEmpty)) := by
  intro db
  obtain ⟨hs, hw, hk⟩ := containerFold_spec containers hdump ⟨seen0, [], []⟩ db
  unfold backup_service_containers
  refine ⟨?_, ?_, ?_⟩
  · rw [hw]
    simp [pairsFor]
  · rw [hk]
    simp [pairsFor]
  · rw [hs]

/-- A first container enumerating `appdb`. -/
def c1WitnessA : ContainerInfo :=
  ⟨"c1".toList, [("MYSQL_ROOT_PASSWORD".toList, "r".toList)], 0, "appdb".toList,
    fun _ => some "dumpdata".toList⟩

/-- A sibling container enumerating the same `appdb`. -/
def c1WitnessB : ContainerInfo :=
  ⟨"c2".toList, [("MYSQL_ROOT_PASSWORD".toList, "r".toList)], 0, "appdb".toList,
    fun _ => some "dumpdata".toList⟩

/-- C1 witness: two containers sharing `appdb` — the first is dumped and
written, the second occurrence is skipped. -/
theorem C1_dedup_witness :
    pairsFor (backup_service_containers [c1WitnessA, c1WitnessB] []).written "appdb".toList
        = [("appdb".toList, "c1".toList)] ∧
    pairsFor (backup_service_containers [c1WitnessA, c1WitnessB] []).skips "appdb".toList
        = [("appdb".toList, "c2".toList)] := by
  have h := C1_dedup_exactly_once [c1WitnessA, c1WitnessB] []
    (by
      intro c hc db
      rcases List.mem_cons.mp hc with rfl | hc2
      · rfl
      · rcases List.mem_cons.mp hc2 with rfl | hc3
        · rfl
        · cases hc3) "appdb".toList
  refine ⟨?_, ?_⟩
  · rw [h.1]
    rfl
  · rw [h.2.1]
    rfl
